import Mathlib

/-!
Verification development for a financial knowledge-graph conversion pipeline.

The development shallowly embeds the Python sources:
  - utils/kge.py                  (global ID allocation, triple building, hetero graph)
  - utils/hake_dataset.py         (dict inversion, HAKE triple/name resolution, dataset export)
  - create_rdf_graph.py           (RDF node/edge construction, URI encoding)
  - utils/utils.py                (name cleaning and extraction helpers)

Python dicts are modelled as association lists with insert-or-update
semantics (`dinsert`), which preserves both key uniqueness and insertion
order exactly as CPython dicts do.  Machine integers do not overflow in
the relevant ranges, so IDs are modelled as `Nat`.  Python exceptions
are modelled with `Except`; a caught exception is part of the returned
value of the embedded function.
-/

/-- Association-list model of a Python dict.  Entries are in insertion
order; a well-formed dict (one built by `dinsert` from `[]`) has no
duplicated keys. -/
abbrev Dict (α β : Type) := List (α × β)

/-- Lookup of a key: first matching entry. -/
def dlookup [DecidableEq α] : Dict α β → α → Option β
  | [], _ => none
  | (k, v) :: rest, key => if k = key then some v else dlookup rest key

/-- Python dict assignment `d[key] = val`: update in place when the key
exists, otherwise append at the end. -/
def dinsert [DecidableEq α] : Dict α β → α → β → Dict α β
  | [], key, val => [(key, val)]
  | (k, v) :: rest, key, val =>
      if k = key then (k, val) :: rest else (k, v) :: dinsert rest key val

/-- Two-level lookup `d[k1][k2]`. -/
def dlookup2 [DecidableEq α] [DecidableEq γ] (d : Dict α (Dict γ β)) (k1 : α) (k2 : γ) :
    Option β :=
  (dlookup d k1).bind (fun inner => dlookup inner k2)

/-- A Python dict comprehension `\x7bv: k for k, v in d.items()\x7d`. -/
def pyInvert [DecidableEq α] [DecidableEq β] (d : Dict α β) : Dict β α :=
  d.foldl (fun acc p => dinsert acc p.2 p.1) []

/-- Lexicographic comparison of character lists by code point, the
order Python uses to compare strings. -/
def charListLe : List Char → List Char → Bool
  | [], _ => true
  | _ :: _, [] => false
  | a :: as, b :: bs =>
      if a.toNat < b.toNat then true
      else if b.toNat < a.toNat then false
      else charListLe as bs

/-- Python string comparison (code-point lexicographic). -/
def strLe (a b : String) : Bool := charListLe a.data b.data

namespace Kge

/-- The result triple of `build_global_id_map` in utils/kge.py. -/
structure GlobalIdResult where
  global_id_map : Dict String (Dict Nat Nat)
  type_map : Dict Nat String
  offsets : Dict String Nat
deriving Repr, DecidableEq

/-- The inner loop of `build_global_id_map`: for every `(name, local_id)`
pair of one local map, record `global_id_map[entity_type][local_id] =
current_offset + local_id` and `type_map[global_id] = entity_type`. -/
def addEntries (cur : Nat) (ty : String) :
    List (String × Nat) → Dict Nat Nat → Dict Nat String → Dict Nat Nat × Dict Nat String
  | [], inner, tmap => (inner, tmap)
  | (_, localId) :: rest, inner, tmap =>
      addEntries cur ty rest (dinsert inner localId (cur + localId))
        (dinsert tmap (cur + localId) ty)

/-- The outer loop of `build_global_id_map`, walking the zipped
`(local_map, entity_type)` pairs while maintaining the running offset. -/
def bgimLoop : List (Dict String Nat × String) → Nat → GlobalIdResult → GlobalIdResult
  | [], _, st => st
  | (localMap, ty) :: rest, cur, st =>
      let stepped := addEntries cur ty localMap [] st.type_map
      bgimLoop rest (cur + localMap.length)
        { global_id_map := dinsert st.global_id_map ty stepped.1
          type_map := stepped.2
          offsets := dinsert st.offsets ty cur }

/-- `build_global_id_map(entity_id_maps, entity_types)` from utils/kge.py.
The leading `assert` on the two lengths is modelled as `Option.none`. -/
def build_global_id_map (entity_id_maps : List (Dict String Nat))
    (entity_types : List String) : Option GlobalIdResult :=
  if entity_id_maps.length = entity_types.length then
    some (bgimLoop (entity_id_maps.zip entity_types) 0 ⟨[], [], []⟩)
  else none

/-- The running offset of the claim and of spec section 8: 0 for the
first processed type, growing by the size of each preceding type map,
read off at the occurrence of the queried type. -/
def sizesBefore : List (Dict String Nat × String) → String → Nat
  | [], _ => 0
  | (m, ty) :: rest, T => if ty = T then 0 else m.length + sizesBefore rest T

/-- Invariant for claim C1: every stored global ID equals the stored
offset of its type plus its local ID. -/
def OffsetConsistent (st : GlobalIdResult) : Prop :=
  ∀ T o inner l g, dlookup st.offsets T = some o →
    dlookup st.global_id_map T = some inner →
    dlookup inner l = some g → g = o + l

/-- Invariant for claims C2 and C3 relative to the running offset `cur`:
all global IDs handed out so far are below `cur`, and the type map sends
every stored global ID back to the type that produced it. -/
def TypeMapConsistent (st : GlobalIdResult) (cur : Nat) : Prop :=
  (∀ g ty, dlookup st.type_map g = some ty → g < cur) ∧
  (∀ T inner, dlookup st.global_id_map T = some inner →
    ∀ l g, dlookup inner l = some g →
      g < cur ∧ dlookup st.type_map g = some T)

/-- Companion invariant: every entry of a stored per-type map (by
membership, not only by lookup) records offset plus local ID. -/
def EntriesConsistent (st : GlobalIdResult) : Prop :=
  ∀ T inner o, dlookup st.global_id_map T = some inner →
    dlookup st.offsets T = some o → ∀ p ∈ inner, p.2 = o + p.1

/-- One relation descriptor of `build_global_triples`: the `edge_index`
tensor of shape 2 x n is modelled as its two rows. -/
structure RelDescriptor where
  relation : String
  head_type : String
  tail_type : String
  heads : List Nat
  tails : List Nat
deriving Repr, DecidableEq

/-- A Python list comprehension over fallible lookups: the whole
comprehension fails (raises KeyError) as soon as one element fails. -/
def listMapOpt (f : α → Option β) : List α → Option (List β)
  | [] => some []
  | x :: xs => (f x).bind (fun y => (listMapOpt f xs).map (fun ys => y :: ys))

/-- `build_global_triples(edge_indices_list, entity2global)` from
utils/kge.py.  For each relation the head row and then the tail row are
translated through `entity2global[type][local_id]` (KeyError modelled as
`Option.none`), zipped, and appended to the accumulated result. -/
def build_global_triples (rels : List RelDescriptor)
    (entity2global : Dict String (Dict Nat Nat)) : Option (List (Nat × String × Nat)) :=
  match rels with
  | [] => some []
  | rel :: rest =>
      (listMapOpt (fun h => dlookup2 entity2global rel.head_type h) rel.heads).bind
        (fun hG => (listMapOpt (fun t => dlookup2 entity2global rel.tail_type t) rel.tails).bind
          (fun tG => (build_global_triples rest entity2global).map
            (fun restT => ((hG.zip tG).map (fun p => (p.1, rel.relation, p.2))) ++ restT)))

/-- Modelled from the spec: the output ordering promised for
`build_global_triples` - relation by relation in the given order, edge
by edge in the given order, each edge translated independently. -/
def orderedTriplesSpec (rels : List RelDescriptor)
    (entity2global : Dict String (Dict Nat Nat)) : List (Nat × String × Nat) :=
  rels.flatMap (fun rel => (rel.heads.zip rel.tails).map (fun p =>
    ((dlookup2 entity2global rel.head_type p.1).getD 0, rel.relation,
      (dlookup2 entity2global rel.tail_type p.2).getD 0)))

/-- A Python dict key: the embedded code mixes integer keys and their
string representations, which are distinct keys in Python. -/
inductive PyKey where
  | pint (n : Nat)
  | pstr (s : String)
deriving Repr, DecidableEq

/-- Reading an integer-keyed dict as a Python-keyed dict (the identity
representation change for the in-memory result of
`build_global_id_map`). -/
def toPyKeyDict (d : Dict Nat String) : Dict PyKey String :=
  d.map (fun p => (PyKey.pint p.1, p.2))

/-- `defaultdict(list)` append `d[k].append(x)`. -/
def dappend [DecidableEq α] (d : Dict α (List β)) (k : α) (x : β) : Dict α (List β) :=
  match dlookup d k with
  | some xs => dinsert d k (xs ++ [x])
  | none => d ++ [(k, [x])]

/-- The grouping loop of `build_hetero_graph` from utils/kge.py: each
triple is keyed by `type_map[str(h)]` and `type_map[str(t)]` - note the
`str` coercion, so lookups use stringified global IDs.  A missing key is
an uncaught KeyError.  The subsequent tensor packaging is not modelled;
the grouped edge dict is the returned content. -/
def bhgLoop (type_map : Dict PyKey String) :
    List (Nat × String × Nat) → Dict (String × String × String) (List (Nat × Nat)) →
    Except String (Dict (String × String × String) (List (Nat × Nat)))
  | [], acc => Except.ok acc
  | (h, r, t) :: rest, acc =>
      match dlookup type_map (PyKey.pstr (toString h)) with
      | none => Except.error "KeyError"
      | some hTy =>
          match dlookup type_map (PyKey.pstr (toString t)) with
          | none => Except.error "KeyError"
          | some tTy => bhgLoop type_map rest (dappend acc (hTy, r, tTy) (h, t))

/-- `build_hetero_graph(global_triples, type_map)` up to the grouped
edge dictionary. -/
def build_hetero_graph (global_triples : List (Nat × String × Nat))
    (type_map : Dict PyKey String) :
    Except String (Dict (String × String × String) (List (Nat × Nat))) :=
  bhgLoop type_map global_triples []

end Kge

namespace Hake

/-- `invert_dict` from utils/hake_dataset.py. -/
def invert_dict [DecidableEq α] [DecidableEq β] (d : Dict α β) : Dict β α :=
  pyInvert d

/-- `invert_nested_dict` from utils/hake_dataset.py. -/
def invert_nested_dict [DecidableEq α] [DecidableEq β] [DecidableEq γ]
    (nested : Dict γ (Dict α β)) : Dict γ (Dict β α) :=
  nested.map (fun p => (p.1, invert_dict p.2))

/-- The digit-accumulating loop of `int(s)`. -/
def pyIntLoop : List Char → Nat → Option Nat
  | [], acc => some acc
  | c :: cs, acc =>
      if 48 ≤ c.toNat ∧ c.toNat ≤ 57 then pyIntLoop cs (acc * 10 + (c.toNat - 48))
      else none

/-- Python `int(s)` on the stringified local IDs, which are the digit
keys of a JSON object; a non-numeric string raises ValueError
(modelled as `Option.none`). -/
def pyInt (s : String) : Option Nat :=
  match s.data with
  | [] => none
  | cs => pyIntLoop cs 0

/-- Result of resolving one global triple to names inside
`make_hake_triples`: success, the caught KeyError of the try block
(which prints the head and tail types and local IDs and returns None),
or an uncaught exception from the lookups outside the try block. -/
inductive StepRes where
  | stepOk (tr : String × String × String)
  | stepAbort (hTy hLoc tTy tLoc : String)
  | stepExn (msg : String)
deriving Repr, DecidableEq

/-- The body of the loop of `make_hake_triples`: resolve the head and
tail types via `global_type[str(.)]`, the local IDs via the inverted
global-to-local map (both outside the try block, so failures are
uncaught), then the names via `id_dict_map[type][int(local)]` inside the
try block, whose KeyError is caught and reported. -/
def resolveTriple (global_type : Dict String String)
    (local_id : Dict String (Dict Nat String))
    (id_dict_map : Dict String (Dict Nat String)) (tr : Nat × String × Nat) : StepRes :=
  match dlookup global_type (toString tr.1) with
  | none => StepRes.stepExn "KeyError"
  | some hTy =>
  match dlookup global_type (toString tr.2.2) with
  | none => StepRes.stepExn "KeyError"
  | some tTy =>
  match dlookup local_id hTy with
  | none => StepRes.stepExn "KeyError"
  | some hInner =>
  match dlookup hInner tr.1 with
  | none => StepRes.stepExn "KeyError"
  | some hLoc =>
  match dlookup local_id tTy with
  | none => StepRes.stepExn "KeyError"
  | some tInner =>
  match dlookup tInner tr.2.2 with
  | none => StepRes.stepExn "KeyError"
  | some tLoc =>
  match dlookup id_dict_map hTy with
  | none => StepRes.stepAbort hTy hLoc tTy tLoc
  | some hNames =>
  match pyInt hLoc with
  | none => StepRes.stepExn "ValueError"
  | some hL =>
  match dlookup hNames hL with
  | none => StepRes.stepAbort hTy hLoc tTy tLoc
  | some hName =>
  match dlookup id_dict_map tTy with
  | none => StepRes.stepAbort hTy hLoc tTy tLoc
  | some tNames =>
  match pyInt tLoc with
  | none => StepRes.stepExn "ValueError"
  | some tL =>
  match dlookup tNames tL with
  | none => StepRes.stepAbort hTy hLoc tTy tLoc
  | some tName => StepRes.stepOk (hName, tr.2.1, tName)

/-- Overall result of `make_hake_triples`: the triple list, the Python
None returned after the caught KeyError (carrying the reported head and
tail types and local IDs), or an uncaught exception. -/
inductive HakeRes where
  | ok (ts : List (String × String × String))
  | aborted (hTy hLoc tTy tLoc : String)
  | exn (msg : String)
deriving Repr, DecidableEq

/-- The triple loop of `make_hake_triples`. -/
def hakeLoop (global_type : Dict String String)
    (local_id : Dict String (Dict Nat String))
    (id_dict_map : Dict String (Dict Nat String)) :
    List (Nat × String × Nat) → List (String × String × String) → HakeRes
  | [], acc => HakeRes.ok acc
  | tr :: rest, acc =>
      match resolveTriple global_type local_id id_dict_map tr with
      | StepRes.stepOk named => hakeLoop global_type local_id id_dict_map rest (acc ++ [named])
      | StepRes.stepAbort a b c d => HakeRes.aborted a b c d
      | StepRes.stepExn m => HakeRes.exn m

/-- `make_hake_triples` from utils/hake_dataset.py, with the JSON
contents passed in place of the file loads: the global triple list, the
global type map (string keys, as JSON objects stringify keys), the
local-to-global nested map (string local IDs for the same reason), and
the per-type inverted id-to-name maps. -/
def make_hake_triples (global_triples : List (Nat × String × Nat))
    (global_type : Dict String String) (global_id : Dict String (Dict String Nat))
    (id_dict_map : Dict String (Dict Nat String)) : HakeRes :=
  hakeLoop global_type (invert_nested_dict global_id) id_dict_map global_triples []

/-- One `train.txt` line: head, relation and tail joined by tabs. -/
def tripleLine (t : String × String × String) : String :=
  t.1 ++ "\t" ++ t.2.1 ++ "\t" ++ t.2.2

/-- Dictionary-file lines: index and value joined by a tab, in order. -/
def dictLines (xs : List String) : List String :=
  xs.enum.map (fun p => toString p.1 ++ "\t" ++ p.2)

/-- `sorted(list(set(xs)))`: the distinct elements in ascending
lexicographic string order. -/
def sortedSet (xs : List String) : List String :=
  List.insertionSort (fun a b => strLe a b = true) xs.dedup

/-- The entity occurrences collected by `make_hake_dataset`: head and
tail of every triple. -/
def collectEntities (triples : List (String × String × String)) : List String :=
  triples.flatMap (fun t => [t.1, t.2.2])

/-- The relation occurrences collected by `make_hake_dataset`. -/
def collectRelations (triples : List (String × String × String)) : List String :=
  triples.map (fun t => t.2.1)

/-- `make_hake_dataset(triples, out_dir)` from utils/hake_dataset.py,
modelled as the line lists of the three written files
(entities.dict, relations.dict, train.txt). -/
def make_hake_dataset (triples : List (String × String × String)) :
    List String × List String × List String :=
  (dictLines (sortedSet (collectEntities triples)),
   dictLines (sortedSet (collectRelations triples)),
   triples.map tripleLine)

end Hake

/-- The round trip of claim C3, mirroring the per-node resolution of
`make_hake_triples`: a global ID is sent through `type_map` to its
entity type, through the inverted per-type local-to-global map to its
local ID, and through the inverted name-to-local-ID map of that type to
a name. -/
def resolveGlobalName (res : Kge.GlobalIdResult)
    (mapsByType : Dict String (Dict String Nat)) (g : Nat) : Option String :=
  (dlookup res.type_map g).bind (fun T =>
    (dlookup res.global_id_map T).bind (fun inner =>
      (dlookup (Hake.invert_dict inner) g).bind (fun l =>
        (dlookup mapsByType T).bind (fun m => dlookup (Hake.invert_dict m) l))))

namespace Rdf

/-- An RDF node: a URI reference or a literal. -/
inductive Node where
  | uri (s : String)
  | lit (s : String)
deriving Repr, DecidableEq

/-- An RDF statement. -/
abbrev RdfTriple := Node × Node × Node

/-- `rdflib.Graph.add`: set insertion (the graph stores each distinct
triple once). -/
def gadd (g : List RdfTriple) (t : RdfTriple) : List RdfTriple :=
  if t ∈ g then g else g ++ [t]

/-- Adding a list of triples one by one. -/
def gaddAll (g : List RdfTriple) (ts : List RdfTriple) : List RdfTriple :=
  ts.foldl gadd g

/-- UTF-8 bytes of one character. -/
def utf8Bytes (c : Char) : List Nat :=
  let n := c.toNat
  if n < 128 then [n]
  else if n < 2048 then [192 + n / 64, 128 + n % 64]
  else if n < 65536 then [224 + n / 4096, 128 + (n / 64) % 64, 128 + n % 64]
  else [240 + n / 262144, 128 + (n / 4096) % 64, 128 + (n / 64) % 64, 128 + n % 64]

/-- Uppercase hexadecimal digit. -/
def hexDigit (n : Nat) : Char :=
  if n < 10 then Char.ofNat (48 + n) else Char.ofNat (55 + n)

/-- `urllib.parse.quote(name, safe=under-hyphen)`: ASCII letters,
digits, underscore, period, hyphen and tilde pass through, every other
character is percent-encoded byte by byte. -/
def pctQuote (s : String) : String :=
  String.mk (s.data.flatMap (fun c =>
    if c.isAlphanum || c = '_' || c = '.' || c = '-' || c = '~' then [c]
    else (utf8Bytes c).flatMap (fun b => ['%', hexDigit (b / 16), hexDigit (b % 16)])))

/-- `create_uri(namespace, name)` from create_rdf_graph.py. -/
def create_uri (ns : String) (name : String) : Node :=
  Node.uri (ns ++ pctQuote name)

def graphNs : String := "http://example.org/graph/"

def companyNs : String := "http://example.org/company/"

def symbolNs : String := "http://example.org/symbol/"

def rdfTypeUri : Node := Node.uri "http://www.w3.org/1999/02/22-rdf-syntax-ns#type"

def rdfsLabelUri : Node := Node.uri "http://www.w3.org/2000/01/rdf-schema#label"

def hasSymbolPred : Node := Node.uri (graphNs ++ "hasSymbol")

/-- The node loop of `add_entity_nodes`: one `rdf:type` and one
`rdfs:label` statement per (id, name) entry. -/
def entityLoop (ns entityType : String) :
    List (Nat × String) → List RdfTriple → Nat → List RdfTriple × Nat
  | [], g, c => (g, c)
  | (_, name) :: rest, g, c =>
      let u := create_uri ns name
      entityLoop ns entityType rest
        (gadd (gadd g (u, rdfTypeUri, Node.uri (graphNs ++ entityType)))
          (u, rdfsLabelUri, Node.lit name)) (c + 1)

/-- `add_entity_nodes(graph, namespace, id_mapping, entity_type)` from
create_rdf_graph.py; returns the extended graph and the count. -/
def add_entity_nodes (g : List RdfTriple) (ns : String) (id_mapping : Dict Nat String)
    (entityType : String) : List RdfTriple × Nat :=
  entityLoop ns entityType id_mapping g 0

/-- One edge of `add_edges_from_tensor`: resolvable when both local IDs
are keys of the respective inverted mappings. -/
def resolveEdge (srcMap dstMap : Dict Nat String) (srcNs dstNs : String) (pred : Node)
    (p : Nat × Nat) : Option RdfTriple :=
  match dlookup srcMap p.1, dlookup dstMap p.2 with
  | some sn, some dn => some (create_uri srcNs sn, pred, create_uri dstNs dn)
  | _, _ => none

/-- The edge loop of `add_edges_from_tensor`: an edge is added only when
both endpoints resolve, otherwise it is skipped without error. -/
def edgesLoop (srcMap dstMap : Dict Nat String) (srcNs dstNs : String) (pred : Node) :
    List (Nat × Nat) → List RdfTriple → Nat → List RdfTriple × Nat
  | [], g, c => (g, c)
  | p :: rest, g, c =>
      match resolveEdge srcMap dstMap srcNs dstNs pred p with
      | some t => edgesLoop srcMap dstMap srcNs dstNs pred rest (gadd g t) (c + 1)
      | none => edgesLoop srcMap dstMap srcNs dstNs pred rest g c

/-- `add_edges_from_tensor` from create_rdf_graph.py with the loaded
tensor rows passed directly (the missing-file early return is not part
of the claims). -/
def add_edges_from_tensor (g : List RdfTriple) (srcIds dstIds : List Nat)
    (srcMap dstMap : Dict Nat String) (srcNs dstNs : String) (pred : Node) :
    List RdfTriple × Nat :=
  edgesLoop srcMap dstMap srcNs dstNs pred (srcIds.zip dstIds) g 0

/-- The inversion inside `load_id_mapping`: name-to-id JSON becomes
id-to-name. -/
def invertIdMapping (mapping : Dict String Nat) : Dict Nat String :=
  pyInvert mapping

/-- The graph produced for claim C5: the company node block, then the
symbol node block, then the single company-to-symbol edge, exactly as
`main` wires `add_entity_nodes` and `add_edges_from_tensor`. -/
def c5Graph : List RdfTriple :=
  let companyMap := invertIdMapping [("AcmeCo", 0)]
  let symbolMap := invertIdMapping [("ACME", 0)]
  let g1 := (add_entity_nodes [] companyNs companyMap "Company").1
  let g2 := (add_entity_nodes g1 symbolNs symbolMap "StockSymbol").1
  (add_edges_from_tensor g2 [0] [0] companyMap symbolMap companyNs symbolNs hasSymbolPred).1

end Rdf

namespace Uts

/-- A Python value as handled by the helpers in utils/utils.py. -/
inductive PyVal where
  | str (s : String)
  | int (n : Int)
  | pynone
  | list (xs : List PyVal)
  | dict (entries : List (String × PyVal))

/-- ASCII whitespace as matched by the regex class backslash-s and by
`str.strip` (the inputs at hand are ASCII). -/
def isPySpace (c : Char) : Bool :=
  c = ' ' || c = '\t' || c = '\n' || c = '\r' || c = Char.ofNat 11 || c = Char.ofNat 12

/-- `str.strip()`. -/
def pyStrip (s : String) : String :=
  String.mk (((s.data.dropWhile isPySpace).reverse.dropWhile isPySpace).reverse)

/-- `str.lower()` (ASCII). -/
def pyLower (s : String) : String :=
  String.mk (s.data.map Char.toLower)

/-- Case-insensitive prefix match of a lowercase pattern. -/
def ciStarts : List Char → List Char → Bool
  | [], _ => true
  | _ :: _, [] => false
  | p :: ps, c :: cs => p = c.toLower && ciStarts ps cs

/-- Length of the maximal run satisfying a predicate. -/
def countWhile (p : Char → Bool) : List Char → Nat
  | [] => 0
  | c :: cs => if p c then countWhile p cs + 1 else 0

/-- The alternatives of TITLE_PREFIX_PATTERN, in regex order. -/
def titleAlts : List (List Char) :=
  ["mr".data, "ms".data, "mrs".data, "dr".data, "prof".data]

/-- One alternative of the title regex applied at position 0: the title
(case-insensitive), an optional period (greedy, with backtracking that
can never succeed on the empty branch because a period is not
whitespace), then at least one whitespace character (greedy).  Returns
the matched length. -/
def tryAlt (alt : List Char) (cs : List Char) : Option Nat :=
  if ciStarts alt cs then
    match cs.drop alt.length with
    | '.' :: r2 =>
        let w := countWhile isPySpace r2
        if 0 < w then some (alt.length + 1 + w) else none
    | r1 =>
        let w := countWhile isPySpace r1
        if 0 < w then some (alt.length + w) else none
  else none

/-- First alternative that matches, in regex alternation order. -/
def firstTitleLen (cs : List Char) : List (List Char) → Option Nat
  | [] => none
  | alt :: rest =>
      match tryAlt alt cs with
      | some n => some n
      | none => firstTitleLen cs rest

/-- `TITLE_PREFIX_PATTERN.sub("", name)`: the pattern is anchored at the
start, so at most one occurrence is removed. -/
def stripTitle (s : String) : String :=
  match firstTitleLen s.data titleAlts with
  | some n => String.mk (s.data.drop n)
  | none => s

/-- `clean_name` from utils/utils.py: non-strings pass through
unchanged, strings lose a leading title, get stripped and lowered. -/
def clean_name : PyVal → PyVal
  | PyVal.str s => PyVal.str (pyLower (pyStrip (stripTitle s)))
  | v => v

/-- The single-quote character. -/
def qc : Char := Char.ofNat 39

/-- `str.startswith`. -/
def pyStartsWith (s pat : String) : Bool :=
  pat.data.isPrefixOf s.data

/-- `str.endswith`. -/
def pyEndsWith (s pat : String) : Bool :=
  pat.data.reverse.isPrefixOf s.data.reverse

/-- Matching the Timestamp pattern at the head of the character list:
the literal text `Timestamp(` plus an opening quote, one or more
non-quote characters, a closing quote and a closing parenthesis.
Returns the quoted content and the remainder after the match. -/
def tsMatch (cs : List Char) : Option (List Char × List Char) :=
  let pat := "Timestamp(".data ++ [qc]
  if pat.isPrefixOf cs then
    let after := cs.drop pat.length
    let content := after.takeWhile (fun c => c ≠ qc)
    match content, after.drop content.length with
    | [], _ => none
    | _, c1 :: c2 :: rest =>
        if c1 = qc && c2 = ')' then some (content, rest) else none
    | _, _ => none
  else none

/-- `re.sub` over the Timestamp pattern: non-overlapping left-to-right
replacement, continuing after each match.  The fuel is the remaining
length, which every step strictly decreases. -/
def tsRewrite : Nat → List Char → List Char
  | 0, cs => cs
  | _ + 1, [] => []
  | fuel + 1, c :: rest =>
      match tsMatch (c :: rest) with
      | some (content, remainder) =>
          qc :: content ++ [qc] ++ tsRewrite fuel remainder
      | none => c :: tsRewrite fuel rest

/-- The preprocessing of `parse_list`: strip, remove one redundant layer
of outer quoting brackets, rewrite Timestamp constructors to plain
quoted strings. -/
def preprocess (s : String) : String :=
  let cleaned := pyStrip s
  let cleaned2 :=
    if pyStartsWith cleaned "[\"" && pyEndsWith cleaned "\"]" then
      String.mk ((cleaned.data.take (cleaned.data.length - 2)).drop 2)
    else cleaned
  String.mk (tsRewrite (cleaned2.data.length) cleaned2.data)

/-- `parse_list` from utils/utils.py.  `ast.literal_eval` is a
parameter: it either returns a value or raises, and the bare except
turns any raise into the Python None. -/
def parse_list (literalEval : String → Option PyVal) : PyVal → PyVal
  | PyVal.str s =>
      match literalEval (preprocess s) with
      | some v => v
      | none => PyVal.pynone
  | v => v

/-- The holder loop of `extract_institution_names`: dict entries with a
Holder key contribute `holder.lower().strip()`; calling `.lower()` on a
non-string Holder raises AttributeError, which nothing catches. -/
def holdersLoop : List PyVal → List String → Except String (List String)
  | [], acc => Except.ok acc
  | o :: rest, acc =>
      match o with
      | PyVal.dict d =>
          match dlookup d "Holder" with
          | some (PyVal.str s) => holdersLoop rest (acc ++ [pyStrip (pyLower s)])
          | some _ => Except.error "AttributeError"
          | none => holdersLoop rest acc
      | _ => holdersLoop rest acc

/-- The shared head of both extractors: a string cell is first parsed,
anything else is used as is. -/
def coerceParsed (literalEval : String → Option PyVal) : PyVal → PyVal
  | PyVal.str s => parse_list literalEval (PyVal.str s)
  | v => v

/-- `extract_institution_names` from utils/utils.py. -/
def extract_institution_names (literalEval : String → Option PyVal) (arr : PyVal) :
    Except String (List String) :=
  match coerceParsed literalEval arr with
  | PyVal.list xs => holdersLoop xs []
  | _ => Except.ok []

/-- `str.split()` without arguments: split on whitespace runs, dropping
empty pieces. -/
def splitWs (s : String) : List String :=
  (s.split isPySpace).filter (fun w => w ≠ "")

/-- `after_first_hyphen` from utils/utils.py.  The regex splits at the
first hyphen (the anchored search succeeds exactly when the text
contains a hyphen); the group after the hyphen stops at a newline
because the dot does not match newlines. -/
def after_first_hyphen (text : String) : String :=
  if text.data.contains '-' then
    let before := text.data.takeWhile (fun c => c ≠ '-')
    let after0 := (text.data.drop (before.length + 1)).takeWhile (fun c => c ≠ '\n')
    let b := pyStrip (String.mk before)
    let a := pyStrip (String.mk after0)
    if b = "Bridgeway Funds, Inc." then "Bridgeway " ++ a
    else if b = "TIAA-CREF Funds" then a.replace "CREF Funds-" ""
    else if b = "SPDR SERIES TRUST" then a.replace "(R)" ""
    else if b = "DFA INVESTMENT DIMENSIONS GROUP INC" then text
    else if pyStartsWith a "Price (T.Rowe)" then
      let kept := (splitWs a).filter
        (fun w => !(["Markets", "Trust", "Fund", "Stock", "Fd.", "Equity"].contains w))
      "T.Rowe Price " ++ pyStrip (String.intercalate " " kept)
    else a
  else text

/-- The holder loop of `extract_mutualfund_names`: `after_first_hyphen`
applied to a non-string Holder raises (re.search rejects non-strings
with a TypeError), which nothing catches. -/
def fundsLoop : List PyVal → List String → Except String (List String)
  | [], acc => Except.ok acc
  | o :: rest, acc =>
      match o with
      | PyVal.dict d =>
          match dlookup d "Holder" with
          | some (PyVal.str s) =>
              fundsLoop rest (acc ++ [pyStrip (pyLower (after_first_hyphen s))])
          | some _ => Except.error "TypeError"
          | none => fundsLoop rest acc
      | _ => fundsLoop rest acc

/-- `extract_mutualfund_names` from utils/utils.py. -/
def extract_mutualfund_names (literalEval : String → Option PyVal) (arr : PyVal) :
    Except String (List String) :=
  match coerceParsed literalEval arr with
  | PyVal.list xs => fundsLoop xs []
  | _ => Except.ok []

/-- Every Holder value among the listed dict cells is a string - the
condition under which the extractor loops cannot raise. -/
def HoldersAreStrings (xs : List PyVal) : Prop :=
  ∀ entries v, PyVal.dict entries ∈ xs → dlookup entries "Holder" = some v →
    ∃ s, v = PyVal.str s

/-- Whether a Python value is a string. -/
def isStr : PyVal → Bool
  | PyVal.str _ => true
  | _ => false

end Uts

theorem dlookup_dinsert_self [DecidableEq α] (d : Dict α β) (k : α) (v : β) :
    dlookup (dinsert d k v) k = some v := by
  induction d with
  | nil => simp [dinsert, dlookup]
  | cons p rest ih =>
      obtain ⟨k1, v1⟩ := p
      by_cases h : k1 = k
      · simp [dinsert, dlookup, h]
      · simp [dinsert, dlookup, h, ih]

theorem dlookup_dinsert_ne [DecidableEq α] (d : Dict α β) (k k2 : α) (v : β)
    (h : k ≠ k2) : dlookup (dinsert d k v) k2 = dlookup d k2 := by
  induction d with
  | nil => simp [dinsert, dlookup, h]
  | cons p rest ih =>
      obtain ⟨k1, v1⟩ := p
      by_cases h1 : k1 = k
      · subst h1
        simp [dinsert, dlookup, h]
      · by_cases h2 : k1 = k2
        · simp [dinsert, dlookup, h1, h2, Ne.symm h]
        · simp [dinsert, dlookup, h1, h2, ih]

theorem mem_of_dlookup [DecidableEq α] {d : Dict α β} {k : α} {v : β}
    (h : dlookup d k = some v) : (k, v) ∈ d := by
  induction d with
  | nil => simp [dlookup] at h
  | cons p rest ih =>
      obtain ⟨k1, v1⟩ := p
      by_cases h1 : k1 = k
      · subst h1
        simp [dlookup] at h
        simp [h]
      · simp [dlookup, h1] at h
        exact List.mem_cons_of_mem _ (ih h)

theorem mem_dinsert [DecidableEq α] {d : Dict α β} {k : α} {v : β} {p : α × β}
    (h : p ∈ dinsert d k v) : p = (k, v) ∨ p ∈ d := by
  induction d with
  | nil => simpa [dinsert] using h
  | cons q rest ih =>
      obtain ⟨k1, v1⟩ := q
      by_cases h1 : k1 = k
      · subst h1
        simp [dinsert] at h
        rcases h with h | h
        · exact Or.inl (by simp [h])
        · exact Or.inr (List.mem_cons_of_mem _ h)
      · simp [dinsert, h1] at h
        rcases h with h | h
        · exact Or.inr (by simp [h])
        · rcases ih h with h2 | h2
          · exact Or.inl h2
          · exact Or.inr (List.mem_cons_of_mem _ h2)

theorem pyInvertAux [DecidableEq α] [DecidableEq β] (d : Dict α β) :
    ∀ (acc : Dict β α) (k : α) (v : β), (∀ p ∈ d, p.2 = v → p.1 = k) →
      ((∃ p ∈ d, p.2 = v) ∨ dlookup acc v = some k) →
      dlookup (d.foldl (fun a p => dinsert a p.2 p.1) acc) v = some k := by
  induction d with
  | nil =>
      intro acc k v _ h
      rcases h with h | h
      · obtain ⟨p, hp, _⟩ := h
        exact absurd hp (List.not_mem_nil p)
      · simpa using h
  | cons q rest ih =>
      intro acc k v hdet h
      rw [List.foldl_cons]
      refine ih _ k v (fun p hp hv => hdet p (List.mem_cons_of_mem _ hp) hv) ?_
      by_cases hq : q.2 = v
      · have hk : q.1 = k := hdet q (List.mem_cons_self _ _) hq
        refine Or.inr ?_
        rw [hq, hk]
        exact dlookup_dinsert_self _ _ _
      · rcases h with h | h
        · obtain ⟨p, hp, hv⟩ := h
          rcases List.mem_cons.mp hp with hp | hp
          · exact absurd (hp ▸ hv) hq
          · exact Or.inl ⟨p, hp, hv⟩
        · refine Or.inr ?_
          rw [dlookup_dinsert_ne _ _ _ _ hq]
          exact h

theorem dlookup_pyInvert [DecidableEq α] [DecidableEq β] (d : Dict α β) (k : α) (v : β)
    (hdet : ∀ p ∈ d, p.2 = v → p.1 = k) (hmem : (k, v) ∈ d) :
    dlookup (pyInvert d) v = some k :=
  pyInvertAux d [] k v hdet (Or.inl ⟨(k, v), hmem, rfl⟩)

theorem zip_get_mem : ∀ (as : List α) (bs : List β) (i : Nat)
    (ha : i < as.length) (hb : i < bs.length),
    (as.get ⟨i, ha⟩, bs.get ⟨i, hb⟩) ∈ as.zip bs := by
  intro as
  induction as with
  | nil => intro bs i ha; exact absurd ha (by simp)
  | cons a as ih =>
      intro bs i ha hb
      match bs, i with
      | b :: bs, 0 => exact List.mem_cons_self _ _
      | b :: bs, i + 1 =>
          rw [List.zip_cons_cons]
          exact List.mem_cons_of_mem _ (ih bs i (by simpa using ha) (by simpa using hb))

theorem dlookup_zip_get [DecidableEq α] (ts : List α) :
    ∀ (ms : List β) (i : Nat) (hi : i < ts.length) (hm : i < ms.length), ts.Nodup →
      dlookup (ts.zip ms) (ts.get ⟨i, hi⟩) = some (ms.get ⟨i, hm⟩) := by
  induction ts with
  | nil => intro ms i hi; exact absurd hi (by simp)
  | cons t0 rest ih =>
      intro ms i hi hm hnd
      match ms, i with
      | m0 :: mrest, 0 => simp [List.zip_cons_cons, dlookup]
      | m0 :: mrest, i + 1 =>
          have hi2 : i < rest.length := by simpa using hi
          have hrest : (rest.get ⟨i, hi2⟩) ∈ rest := List.get_mem rest i hi2
          have hne : t0 ≠ rest.get ⟨i, hi2⟩ :=
            fun hh => (List.nodup_cons.mp hnd).1 (hh ▸ hrest)
          rw [List.zip_cons_cons]
          show dlookup ((t0, m0) :: rest.zip mrest) (rest.get _) = _
          rw [dlookup]
          rw [if_neg hne]
          exact ih mrest i hi2 (by simpa using hm) (List.nodup_cons.mp hnd).2

namespace Kge

theorem addEntries_fst_lookup (cur : Nat) (ty : String) (m : List (String × Nat))
    (inner : Dict Nat Nat) (tmap : Dict Nat String)
    (hinner : ∀ l g, dlookup inner l = some g → g = cur + l) :
    ∀ l g, dlookup (addEntries cur ty m inner tmap).1 l = some g → g = cur + l := by
  induction m generalizing inner tmap with
  | nil => simpa [addEntries] using hinner
  | cons p rest ih =>
      obtain ⟨nm, lid⟩ := p
      intro l g hg
      refine ih (dinsert inner lid (cur + lid)) (dinsert tmap (cur + lid) ty) ?_ l g hg
      intro l2 g2 h2
      by_cases hl : lid = l2
      · subst hl
        rw [dlookup_dinsert_self] at h2
        exact (Option.some_inj.mp h2).symm
      · rw [dlookup_dinsert_ne _ _ _ _ hl] at h2
        exact hinner l2 g2 h2

theorem addEntries_snd_below (cur n : Nat) (ty : String) (m : List (String × Nat))
    (inner : Dict Nat Nat) (tmap : Dict Nat String) (hn : n < cur) :
    dlookup (addEntries cur ty m inner tmap).2 n = dlookup tmap n := by
  induction m generalizing inner tmap with
  | nil => simp [addEntries]
  | cons p rest ih =>
      obtain ⟨nm, lid⟩ := p
      have hne : cur + lid ≠ n := by omega
      rw [addEntries, ih]
      exact dlookup_dinsert_ne _ _ _ _ hne

theorem addEntries_snd_lookup (cur : Nat) (ty : String) (m : List (String × Nat))
    (inner : Dict Nat Nat) (tmap : Dict Nat String) :
    ∀ g ty2, dlookup (addEntries cur ty m inner tmap).2 g = some ty2 →
      dlookup tmap g = some ty2 ∨ (ty2 = ty ∧ ∃ p ∈ m, g = cur + p.2) := by
  induction m generalizing inner tmap with
  | nil =>
      intro g ty2 h
      exact Or.inl (by simpa [addEntries] using h)
  | cons p rest ih =>
      obtain ⟨nm, lid⟩ := p
      intro g ty2 h
      rw [addEntries] at h
      rcases ih _ _ g ty2 h with h2 | h2
      · by_cases hg : cur + lid = g
        · subst hg
          rw [dlookup_dinsert_self] at h2
          refine Or.inr ⟨(Option.some_inj.mp h2).symm, ⟨(nm, lid), by simp⟩⟩
        · rw [dlookup_dinsert_ne _ _ _ _ hg] at h2
          exact Or.inl h2
      · exact Or.inr ⟨h2.1, by
          obtain ⟨q, hq, hq2⟩ := h2.2
          exact ⟨q, List.mem_cons_of_mem _ hq, hq2⟩⟩

theorem addEntries_snd_assigned (cur : Nat) (ty : String) (m : List (String × Nat))
    (inner : Dict Nat Nat) (tmap : Dict Nat String) :
    ∀ g, ((∃ p ∈ m, g = cur + p.2) ∨ dlookup tmap g = some ty) →
      dlookup (addEntries cur ty m inner tmap).2 g = some ty := by
  induction m generalizing inner tmap with
  | nil =>
      intro g h
      rcases h with h | h
      · obtain ⟨p, hp, _⟩ := h
        exact absurd hp (List.not_mem_nil p)
      · simpa [addEntries]
  | cons p rest ih =>
      obtain ⟨nm, lid⟩ := p
      intro g h
      rw [addEntries]
      refine ih _ _ g ?_
      rcases h with h | h
      · obtain ⟨q, hq, hq2⟩ := h
        rcases List.mem_cons.mp hq with hq | hq
        · subst hq
          refine Or.inr ?_
          rw [hq2]
          exact dlookup_dinsert_self _ _ _
        · exact Or.inl ⟨q, hq, hq2⟩
      · by_cases hg : cur + lid = g
        · subst hg
          exact Or.inr (dlookup_dinsert_self _ _ _)
        · refine Or.inr ?_
          rw [dlookup_dinsert_ne _ _ _ _ hg]
          exact h

theorem addEntries_fst_assigned (cur : Nat) (ty : String) (m : List (String × Nat))
    (inner : Dict Nat Nat) (tmap : Dict Nat String) :
    ∀ l, ((∃ nm, (nm, l) ∈ m) ∨ dlookup inner l = some (cur + l)) →
      dlookup (addEntries cur ty m inner tmap).1 l = some (cur + l) := by
  induction m generalizing inner tmap with
  | nil =>
      intro l h
      rcases h with h | h
      · obtain ⟨nm, hp⟩ := h
        exact absurd hp (List.not_mem_nil _)
      · simpa [addEntries]
  | cons p rest ih =>
      obtain ⟨nm0, lid⟩ := p
      intro l h
      rw [addEntries]
      refine ih _ _ l ?_
      rcases h with h | h
      · obtain ⟨nm, hp⟩ := h
        rcases List.mem_cons.mp hp with hp | hp
        · have : lid = l := by
            have := congrArg Prod.snd hp
            simpa using this.symm
          subst this
          exact Or.inr (dlookup_dinsert_self _ _ _)
        · exact Or.inl ⟨nm, hp⟩
      · by_cases hg : lid = l
        · subst hg
          exact Or.inr (dlookup_dinsert_self _ _ _)
        · refine Or.inr ?_
          rw [dlookup_dinsert_ne _ _ _ _ hg]
          exact h

theorem bgimLoop_offsetConsistent (pairs : List (Dict String Nat × String)) :
    ∀ cur st, OffsetConsistent st → OffsetConsistent (bgimLoop pairs cur st) := by
  induction pairs with
  | nil => intro cur st h; simpa [bgimLoop] using h
  | cons p rest ih =>
      obtain ⟨m, ty⟩ := p
      intro cur st h
      rw [bgimLoop]
      refine ih _ _ ?_
      intro T o inner l g ho hg hl
      by_cases hT : ty = T
      · subst hT
        rw [dlookup_dinsert_self] at ho hg
        have ho2 : cur = o := Option.some_inj.mp ho
        have hg2 : (addEntries cur ty m [] st.type_map).1 = inner := Option.some_inj.mp hg
        have h3 := addEntries_fst_lookup cur ty m [] st.type_map
          (by intro l2 g2 h2; simp [dlookup] at h2) l g (by rw [hg2]; exact hl)
        rw [← ho2]
        exact h3
      · rw [dlookup_dinsert_ne _ _ _ _ hT] at ho hg
        exact h T o inner l g ho hg hl

theorem bgimLoop_offsets_skip (pairs : List (Dict String Nat × String)) :
    ∀ cur st T, T ∉ pairs.map Prod.snd →
      dlookup (bgimLoop pairs cur st).offsets T = dlookup st.offsets T := by
  induction pairs with
  | nil => intro cur st T _; rfl
  | cons p rest ih =>
      obtain ⟨m, ty⟩ := p
      intro cur st T hT
      rw [List.map_cons] at hT
      have h1 : T ≠ ty := fun hh => hT (by rw [hh]; exact List.mem_cons_self _ _)
      have h2 : T ∉ rest.map Prod.snd := fun hh => hT (List.mem_cons_of_mem _ hh)
      rw [bgimLoop, ih _ _ T h2]
      exact dlookup_dinsert_ne _ _ _ _ (fun hh => h1 hh.symm)

theorem bgimLoop_offsets_charc (pairs : List (Dict String Nat × String)) :
    ∀ cur st T, (pairs.map Prod.snd).Nodup → T ∈ pairs.map Prod.snd →
      dlookup (bgimLoop pairs cur st).offsets T = some (cur + sizesBefore pairs T) := by
  induction pairs with
  | nil => intro cur st T _ h; exact absurd h (List.not_mem_nil T)
  | cons p rest ih =>
      obtain ⟨m, ty⟩ := p
      intro cur st T hnd hT
      rw [List.map_cons] at hnd hT
      rw [bgimLoop]
      by_cases hty : ty = T
      · subst hty
        have hrest : ty ∉ rest.map Prod.snd := (List.nodup_cons.mp hnd).1
        rw [bgimLoop_offsets_skip rest _ _ ty hrest, dlookup_dinsert_self]
        simp [sizesBefore]
      · have hT2 : T ∈ rest.map Prod.snd := by
          rcases List.mem_cons.mp hT with h | h
          · exact absurd h (fun hh => hty hh.symm)
          · exact h
        rw [ih _ _ T (List.nodup_cons.mp hnd).2 hT2]
        simp [sizesBefore, hty]
        omega

theorem bgimLoop_offsets_mem (pairs : List (Dict String Nat × String)) :
    ∀ cur st T o, dlookup (bgimLoop pairs cur st).offsets T = some o →
      T ∈ pairs.map Prod.snd ∨ dlookup st.offsets T = some o := by
  induction pairs with
  | nil => intro cur st T o h; exact Or.inr h
  | cons p rest ih =>
      obtain ⟨m, ty⟩ := p
      intro cur st T o h
      rw [bgimLoop] at h
      rcases ih _ _ T o h with h2 | h2
      · refine Or.inl ?_
        rw [List.map_cons]
        exact List.mem_cons_of_mem _ h2
      · by_cases hty : ty = T
        · refine Or.inl ?_
          rw [List.map_cons, hty]
          exact List.mem_cons_self _ _
        · rw [dlookup_dinsert_ne _ _ _ _ hty] at h2
          exact Or.inr h2

theorem addEntries_fst_keys (cur : Nat) (ty : String) (m : List (String × Nat))
    (inner : Dict Nat Nat) (tmap : Dict Nat String) :
    ∀ l g, dlookup (addEntries cur ty m inner tmap).1 l = some g →
      (∃ p ∈ m, p.2 = l) ∨ dlookup inner l = some g := by
  induction m generalizing inner tmap with
  | nil =>
      intro l g h
      exact Or.inr (by simpa [addEntries] using h)
  | cons p rest ih =>
      obtain ⟨nm, lid⟩ := p
      intro l g h
      rw [addEntries] at h
      rcases ih _ _ l g h with h2 | h2
      · obtain ⟨q, hq, hq2⟩ := h2
        exact Or.inl ⟨q, List.mem_cons_of_mem _ hq, hq2⟩
      · by_cases hl : lid = l
        · exact Or.inl ⟨(nm, lid), List.mem_cons_self _ _, hl⟩
        · rw [dlookup_dinsert_ne _ _ _ _ hl] at h2
          exact Or.inr h2

theorem addEntries_fst_mem (cur : Nat) (ty : String) (m : List (String × Nat))
    (inner : Dict Nat Nat) (tmap : Dict Nat String) :
    ∀ p ∈ (addEntries cur ty m inner tmap).1, p ∈ inner ∨ p.2 = cur + p.1 := by
  induction m generalizing inner tmap with
  | nil =>
      intro p hp
      exact Or.inl (by simpa [addEntries] using hp)
  | cons q rest ih =>
      obtain ⟨nm, lid⟩ := q
      intro p hp
      rw [addEntries] at hp
      rcases ih _ _ p hp with h2 | h2
      · rcases mem_dinsert h2 with h3 | h3
        · exact Or.inr (by rw [h3])
        · exact Or.inl h3
      · exact Or.inr h2

theorem bgimLoop_typeMap (pairs : List (Dict String Nat × String)) :
    ∀ cur st, (∀ p ∈ pairs, ∀ q ∈ p.1, q.2 < p.1.length) →
      TypeMapConsistent st cur →
      ∃ cur2, TypeMapConsistent (bgimLoop pairs cur st) cur2 := by
  induction pairs with
  | nil => intro cur st _ h; exact ⟨cur, by simpa [bgimLoop] using h⟩
  | cons p rest ih =>
      obtain ⟨m, ty⟩ := p
      intro cur st hdense hinv
      rw [bgimLoop]
      refine ih _ _ (fun p hp => hdense p (List.mem_cons_of_mem _ hp)) ?_
      have hdm : ∀ q ∈ m, q.2 < m.length := hdense (m, ty) (List.mem_cons_self _ _)
      constructor
      · intro g ty2 hg
        rcases addEntries_snd_lookup cur ty m [] st.type_map g ty2 hg with h2 | h2
        · have := hinv.1 g ty2 h2
          omega
        · obtain ⟨_, q, hq, hq2⟩ := h2
          have := hdm q hq
          omega
      · intro T inner hT l g hl
        by_cases hty : ty = T
        · subst hty
          rw [dlookup_dinsert_self] at hT
          have hT2 : (addEntries cur ty m [] st.type_map).1 = inner := Option.some_inj.mp hT
          have hl2 : dlookup (addEntries cur ty m [] st.type_map).1 l = some g := by
            rw [hT2]; exact hl
          have hg : g = cur + l :=
            addEntries_fst_lookup cur ty m [] st.type_map
              (by intro l2 g2 h2; simp [dlookup] at h2) l g hl2
          have hkey : ∃ p ∈ m, p.2 = l := by
            rcases addEntries_fst_keys cur ty m [] st.type_map l g hl2 with h2 | h2
            · exact h2
            · simp [dlookup] at h2
          obtain ⟨q, hq, hq2⟩ := hkey
          have hbound := hdm q hq
          refine ⟨by omega, ?_⟩
          refine addEntries_snd_assigned cur ty m [] st.type_map g (Or.inl ⟨q, hq, ?_⟩)
          omega
        · rw [dlookup_dinsert_ne _ _ _ _ hty] at hT
          have h2 := hinv.2 T inner hT l g hl
          refine ⟨by omega, ?_⟩
          rw [addEntries_snd_below cur g ty m [] st.type_map h2.1]
          exact h2.2

theorem bgimLoop_entriesConsistent (pairs : List (Dict String Nat × String)) :
    ∀ cur st, EntriesConsistent st → EntriesConsistent (bgimLoop pairs cur st) := by
  induction pairs with
  | nil => intro cur st h; simpa [bgimLoop] using h
  | cons p rest ih =>
      obtain ⟨m, ty⟩ := p
      intro cur st h
      rw [bgimLoop]
      refine ih _ _ ?_
      intro T inner o hT ho q hq
      by_cases hty : ty = T
      · subst hty
        rw [dlookup_dinsert_self] at hT ho
        have hT2 : (addEntries cur ty m [] st.type_map).1 = inner := Option.some_inj.mp hT
        have ho2 : cur = o := Option.some_inj.mp ho
        rcases addEntries_fst_mem cur ty m [] st.type_map q (by rw [hT2]; exact hq) with h2 | h2
        · exact absurd h2 (List.not_mem_nil q)
        · rw [← ho2]
          exact h2
      · rw [dlookup_dinsert_ne _ _ _ _ hty] at hT ho
        exact h T inner o hT ho q hq

theorem bgimLoop_gmap_skip (pairs : List (Dict String Nat × String)) :
    ∀ cur st T, T ∉ pairs.map Prod.snd →
      dlookup (bgimLoop pairs cur st).global_id_map T = dlookup st.global_id_map T := by
  induction pairs with
  | nil => intro cur st T _; rfl
  | cons p rest ih =>
      obtain ⟨m, ty⟩ := p
      intro cur st T hT
      rw [List.map_cons] at hT
      have h1 : T ≠ ty := fun hh => hT (by rw [hh]; exact List.mem_cons_self _ _)
      have h2 : T ∉ rest.map Prod.snd := fun hh => hT (List.mem_cons_of_mem _ hh)
      rw [bgimLoop, ih _ _ T h2]
      exact dlookup_dinsert_ne _ _ _ _ (fun hh => h1 hh.symm)

theorem bgimLoop_gmap_assigned (pairs : List (Dict String Nat × String)) :
    ∀ cur st (m : Dict String Nat) (T : String), (pairs.map Prod.snd).Nodup →
      (m, T) ∈ pairs →
      ∃ inner, dlookup (bgimLoop pairs cur st).global_id_map T = some inner ∧
        ∀ nm l, (nm, l) ∈ m →
          dlookup inner l = some (cur + sizesBefore pairs T + l) := by
  induction pairs with
  | nil => intro cur st m T _ hmem; exact absurd hmem (List.not_mem_nil _)
  | cons p rest ih =>
      obtain ⟨m0, ty⟩ := p
      intro cur st m T hnd hmem
      rw [List.map_cons] at hnd
      rcases List.mem_cons.mp hmem with hp | hp
      · have hm0 : m0 = m := (Prod.mk.injEq _ _ _ _).mp hp.symm |>.1
        have hty : ty = T := (Prod.mk.injEq _ _ _ _).mp hp.symm |>.2
        subst hm0
        subst hty
        have hrest : ty ∉ rest.map Prod.snd := (List.nodup_cons.mp hnd).1
        rw [bgimLoop]
        rw [bgimLoop_gmap_skip rest _ _ ty hrest, dlookup_dinsert_self]
        refine ⟨_, rfl, ?_⟩
        intro nm l hl
        have := addEntries_fst_assigned cur ty m0 [] st.type_map l (Or.inl ⟨nm, hl⟩)
        simpa [sizesBefore] using this
      · have hty : ty ≠ T := by
          intro hh
          subst hh
          exact (List.nodup_cons.mp hnd).1
            (by simpa using List.mem_map_of_mem Prod.snd hp)
        rw [bgimLoop]
        obtain ⟨inner, hinner, hfull⟩ :=
          ih (cur + m0.length) _ m T (List.nodup_cons.mp hnd).2 hp
        refine ⟨inner, hinner, ?_⟩
        intro nm l hl
        have := hfull nm l hl
        have harith : cur + m0.length + sizesBefore rest T + l
            = cur + sizesBefore ((m0, ty) :: rest) T + l := by
          simp [sizesBefore, hty]
          omega
        rw [← harith]
        exact this

end Kge

/-- Claim C1: for every list of per-type name-to-local-ID maps with a
matching ordered list of (distinct) entity types, and for every entity
type T and local ID L present in the map of T, the returned
global_id_map satisfies global_id_map[T][L] = offsets[T] + L, where
offsets[T] is the running offset that starts at 0 and is increased by
the size of each preceding type map in the given order. -/
theorem C1_global_id_eq_offset_plus_local
    (maps : List (Dict String Nat)) (types : List String)
    (res : Kge.GlobalIdResult) (T : String) (L g o : Nat)
    (hbuild : Kge.build_global_id_map maps types = some res)
    (hnd : types.Nodup)
    (ho : dlookup res.offsets T = some o)
    (hg : dlookup2 res.global_id_map T L = some g) :
    g = o + L ∧ o = Kge.sizesBefore (maps.zip types) T := by
  rw [Kge.build_global_id_map] at hbuild
  by_cases hlen : maps.length = types.length
  · rw [if_pos hlen, Option.some_inj] at hbuild
    subst hbuild
    obtain ⟨inner, hinner, hL⟩ := Option.bind_eq_some.mp hg
    constructor
    · exact Kge.bgimLoop_offsetConsistent (maps.zip types) 0 ⟨[], [], []⟩
        (by intro T2 o2 i2 l2 g2 h2 _ _; simp [dlookup] at h2)
        T o inner L g ho hinner hL
    · have hmem : T ∈ (maps.zip types).map Prod.snd := by
        rcases Kge.bgimLoop_offsets_mem (maps.zip types) 0 ⟨[], [], []⟩ T o ho with h | h
        · exact h
        · simp [dlookup] at h
      have hnd2 : ((maps.zip types).map Prod.snd).Nodup := by
        rw [List.map_snd_zip maps types (le_of_eq hlen.symm)]
        exact hnd
      have hcharc := Kge.bgimLoop_offsets_charc (maps.zip types) 0 ⟨[], [], []⟩ T hnd2 hmem
      rw [ho] at hcharc
      have := Option.some_inj.mp hcharc
      omega
  · rw [if_neg hlen] at hbuild
    exact absurd hbuild (Option.noConfusion)

/-- Witness for C1 at a concrete input: two types with two and one
entries respectively; the second type gets offset 2 and its entry with
local ID 4 gets global ID 6. -/
theorem C1_witness :
    Kge.build_global_id_map [[("a", 0), ("b", 1)], [("c", 4)]] ["company", "officer"]
        = some ⟨[("company", [(0, 0), (1, 1)]), ("officer", [(4, 6)])],
                [(0, "company"), (1, "company"), (6, "officer")],
                [("company", 0), ("officer", 2)]⟩ ∧
      (6 : Nat) = 2 + 4 ∧
      (2 : Nat) = Kge.sizesBefore ([[("a", 0), ("b", 1)], [("c", 4)]].zip
        ["company", "officer"]) "officer" := by
  refine ⟨by decide, ?_, ?_⟩
  · exact (C1_global_id_eq_offset_plus_local
      [[("a", 0), ("b", 1)], [("c", 4)]] ["company", "officer"]
      ⟨[("company", [(0, 0), (1, 1)]), ("officer", [(4, 6)])],
        [(0, "company"), (1, "company"), (6, "officer")],
        [("company", 0), ("officer", 2)]⟩
      "officer" 4 6 2 (by decide) (by decide) (by decide) (by decide)).1
  · exact (C1_global_id_eq_offset_plus_local
      [[("a", 0), ("b", 1)], [("c", 4)]] ["company", "officer"]
      ⟨[("company", [(0, 0), (1, 1)]), ("officer", [(4, 6)])],
        [(0, "company"), (1, "company"), (6, "officer")],
        [("company", 0), ("officer", 2)]⟩
      "officer" 4 6 2 (by decide) (by decide) (by decide) (by decide)).2

/-- Counterexample to claim C2 as stated: with maps a maps-to 1 and
b maps-to 0 and types A then B, type A assigns global ID 1 to local
ID 1, but the later type B also assigns global ID 1 (offset 1 plus
local 0) and overwrites the type map entry, so
type_map[global_id_map[A][1]] is B, not A. -/
theorem C2_counterexample :
    ((Kge.build_global_id_map [[("a", 1)], [("b", 0)]] ["A", "B"]).bind
        (fun r => dlookup2 r.global_id_map "A" 1)) = some 1 ∧
    ((Kge.build_global_id_map [[("a", 1)], [("b", 0)]] ["A", "B"]).bind
        (fun r => dlookup r.type_map 1)) = some "B" ∧
    "B" ≠ "A" := by
  refine ⟨by decide, by decide, by decide⟩

/-- Claim C2 (amended): when every local ID is below the size of its own
map (dense per-type local IDs, which is what makes the per-type global
ID ranges disjoint), the returned type_map sends every assigned global
ID back to the type under which it was assigned.  Without that density
assumption the claim fails, see the counterexample. -/
theorem C2_amended_type_map_roundtrip
    (maps : List (Dict String Nat)) (types : List String)
    (res : Kge.GlobalIdResult) (T : String) (L g : Nat)
    (hbuild : Kge.build_global_id_map maps types = some res)
    (hdense : ∀ m ∈ maps, ∀ p ∈ m, p.2 < m.length)
    (hg : dlookup2 res.global_id_map T L = some g) :
    dlookup res.type_map g = some T := by
  rw [Kge.build_global_id_map] at hbuild
  by_cases hlen : maps.length = types.length
  · rw [if_pos hlen, Option.some_inj] at hbuild
    subst hbuild
    obtain ⟨inner, hinner, hL⟩ := Option.bind_eq_some.mp hg
    have hdp : ∀ p ∈ maps.zip types, ∀ q ∈ p.1, q.2 < p.1.length := by
      intro p hp
      obtain ⟨a, b⟩ := p
      exact hdense a (List.of_mem_zip hp).1
    obtain ⟨cur2, hinv⟩ := Kge.bgimLoop_typeMap (maps.zip types) 0 ⟨[], [], []⟩ hdp
      ⟨by intro g2 ty2 h2; simp [dlookup] at h2,
       by intro T2 i2 h2; simp [dlookup] at h2⟩
    exact (hinv.2 T inner hinner L g hL).2
  · rw [if_neg hlen] at hbuild
    exact absurd hbuild Option.noConfusion

/-- Witness for the amended C2 at a concrete dense input: type B starts
at offset 2 and its local ID 0 becomes global ID 2, which the type map
sends back to B. -/
theorem C2_witness :
    dlookup (Kge.GlobalIdResult.mk
      [("A", [(0, 0), (1, 1)]), ("B", [(0, 2)])]
      [(0, "A"), (1, "A"), (2, "B")]
      [("A", 0), ("B", 2)]).type_map 2 = some "B" :=
  C2_amended_type_map_roundtrip [[("a", 0), ("b", 1)], [("c", 0)]] ["A", "B"]
    (Kge.GlobalIdResult.mk
      [("A", [(0, 0), (1, 1)]), ("B", [(0, 2)])]
      [(0, "A"), (1, "A"), (2, "B")]
      [("A", 0), ("B", 2)]) "B" 0 2
    (by decide) (by decide) (by decide)

/-- Counterexample to claim C3 as stated: both per-type maps are
bijective (one entry each), yet the name a of type A with local ID 1
gets global ID 1, which the type map resolves to B, and the round trip
returns b instead of a. -/
theorem C3_counterexample :
    ((Kge.build_global_id_map [[("a", 1)], [("b", 0)]] ["A", "B"]).bind
        (fun r => dlookup2 r.global_id_map "A" 1)) = some 1 ∧
    ((Kge.build_global_id_map [[("a", 1)], [("b", 0)]] ["A", "B"]).bind
        (fun r => resolveGlobalName r (["A", "B"].zip [[("a", 1)], [("b", 0)]]) 1))
      = some "b" ∧
    "b" ≠ "a" := by
  refine ⟨by decide, by decide, by decide⟩

/-- Claim C3 (amended): when every per-type map is bijective and its
local IDs are dense (below the size of the map, which keeps the global
ranges of distinct types disjoint), the round trip of the global ID
space recovers the original name: global ID through type_map to the
type, through the inverted local-to-global map to the local ID, through
the inverted name-to-local-ID map to the name. -/
theorem C3_amended_roundtrip
    (maps : List (Dict String Nat)) (types : List String)
    (res : Kge.GlobalIdResult) (i : Nat) (N : String) (L : Nat)
    (hbuild : Kge.build_global_id_map maps types = some res)
    (hnd : types.Nodup)
    (hdense : ∀ m ∈ maps, ∀ p ∈ m, p.2 < m.length)
    (hinj : ∀ m ∈ maps, ∀ p ∈ m, ∀ q ∈ m, p.2 = q.2 → p.1 = q.1)
    (hi : i < types.length) (hm : i < maps.length)
    (hN : dlookup (maps.get ⟨i, hm⟩) N = some L) :
    ∃ g, dlookup2 res.global_id_map (types.get ⟨i, hi⟩) L = some g ∧
      resolveGlobalName res (types.zip maps) g = some N := by
  rw [Kge.build_global_id_map] at hbuild
  by_cases hlen : maps.length = types.length
  · rw [if_pos hlen, Option.some_inj] at hbuild
    subst hbuild
    set T := types.get ⟨i, hi⟩ with hT
    set m := maps.get ⟨i, hm⟩ with hmdef
    set pairs := maps.zip types with hpairs
    have hndp : (pairs.map Prod.snd).Nodup := by
      rw [hpairs, List.map_snd_zip maps types (le_of_eq hlen.symm)]
      exact hnd
    have hmem : (m, T) ∈ pairs := zip_get_mem maps types i hm hi
    obtain ⟨inner, hinner, hfull⟩ :=
      Kge.bgimLoop_gmap_assigned pairs 0 ⟨[], [], []⟩ m T hndp hmem
    have hmemN : (N, L) ∈ m := mem_of_dlookup hN
    have hLg := hfull N L hmemN
    set g := 0 + Kge.sizesBefore pairs T + L with hgdef
    refine ⟨g, ?_, ?_⟩
    · rw [dlookup2, hinner]
      simpa using hLg
    · have hdp : ∀ p ∈ pairs, ∀ q ∈ p.1, q.2 < p.1.length := by
        intro p hp
        obtain ⟨a, b⟩ := p
        exact hdense a (List.of_mem_zip hp).1
      obtain ⟨cur2, hinv⟩ := Kge.bgimLoop_typeMap pairs 0 ⟨[], [], []⟩ hdp
        ⟨by intro g2 ty2 h2; simp [dlookup] at h2,
         by intro T2 i2 h2; simp [dlookup] at h2⟩
      have htm : dlookup (Kge.bgimLoop pairs 0 ⟨[], [], []⟩).type_map g = some T :=
        (hinv.2 T inner hinner L g hLg).2
      have hoff : dlookup (Kge.bgimLoop pairs 0 ⟨[], [], []⟩).offsets T
          = some (0 + Kge.sizesBefore pairs T) := by
        refine Kge.bgimLoop_offsets_charc pairs 0 ⟨[], [], []⟩ T hndp ?_
        exact List.mem_map_of_mem Prod.snd hmem
      have hentries := Kge.bgimLoop_entriesConsistent pairs 0 ⟨[], [], []⟩
        (by intro T2 i2 o2 h2; simp [dlookup] at h2) T inner
        (0 + Kge.sizesBefore pairs T) hinner hoff
      have hinnerInv : dlookup (Hake.invert_dict inner) g = some L := by
        refine dlookup_pyInvert inner L g ?_ (mem_of_dlookup hLg)
        intro p hp hpv
        have := hentries p hp
        omega
      have hmlook : dlookup (types.zip maps) T = some m := by
        rw [hT, hmdef]
        exact dlookup_zip_get types maps i hi hm hnd
      have hmInv : dlookup (Hake.invert_dict m) L = some N := by
        refine dlookup_pyInvert m N L ?_ hmemN
        intro p hp hpv
        have hmm : m ∈ maps := List.get_mem _ _ _
        exact hinj m hmm p hp (N, L) hmemN (by simpa using hpv)
      simp [resolveGlobalName, htm, hinner, hinnerInv, hmlook, hmInv]
  · rw [if_neg hlen] at hbuild
    exact absurd hbuild Option.noConfusion

/-- Witness for the amended C3 at a concrete input: the name c of type
officer with local ID 0 gets global ID 2 and the round trip returns c. -/
theorem C3_witness :
    ∃ g, dlookup2 (Kge.GlobalIdResult.mk
        [("company", [(0, 0), (1, 1)]), ("officer", [(0, 2)])]
        [(0, "company"), (1, "company"), (2, "officer")]
        [("company", 0), ("officer", 2)]).global_id_map
        (["company", "officer"].get ⟨1, by decide⟩) 0 = some g ∧
      resolveGlobalName (Kge.GlobalIdResult.mk
        [("company", [(0, 0), (1, 1)]), ("officer", [(0, 2)])]
        [(0, "company"), (1, "company"), (2, "officer")]
        [("company", 0), ("officer", 2)])
        (["company", "officer"].zip [[("a", 0), ("b", 1)], [("c", 0)]]) g = some "c" :=
  C3_amended_roundtrip [[("a", 0), ("b", 1)], [("c", 0)]] ["company", "officer"]
    (Kge.GlobalIdResult.mk
      [("company", [(0, 0), (1, 1)]), ("officer", [(0, 2)])]
      [(0, "company"), (1, "company"), (2, "officer")]
      [("company", 0), ("officer", 2)]) 1 "c" 0
    (by decide) (by decide) (by decide) (by decide) (by decide) (by decide) (by decide)

/-- Counterexample to claim C5 as stated: the single-company,
single-symbol, single-edge export produces 5 triples, not the 6 the
claim announces (its own breakdown 1 + 2 + 2 already sums to 5). -/
theorem C5_counterexample : Rdf.c5Graph.length = 5 ∧ Rdf.c5Graph.length ≠ 6 := by
  refine ⟨by decide, by decide⟩

/-- Claim C5 (amended): given the company mapping AcmeCo to 0, the
symbol mapping ACME to 0 and the single edge tensor, the graph is
exactly one rdf:type and one rdfs:label triple per node plus one
hasSymbol triple between the two URI-encoded nodes - 5 triples in
total. -/
theorem C5_amended_graph :
    Rdf.c5Graph =
      [(Rdf.Node.uri "http://example.org/company/AcmeCo",
        Rdf.rdfTypeUri, Rdf.Node.uri "http://example.org/graph/Company"),
       (Rdf.Node.uri "http://example.org/company/AcmeCo",
        Rdf.rdfsLabelUri, Rdf.Node.lit "AcmeCo"),
       (Rdf.Node.uri "http://example.org/symbol/ACME",
        Rdf.rdfTypeUri, Rdf.Node.uri "http://example.org/graph/StockSymbol"),
       (Rdf.Node.uri "http://example.org/symbol/ACME",
        Rdf.rdfsLabelUri, Rdf.Node.lit "ACME"),
       (Rdf.Node.uri "http://example.org/company/AcmeCo",
        Rdf.Node.uri "http://example.org/graph/hasSymbol",
        Rdf.Node.uri "http://example.org/symbol/ACME")] ∧
    Rdf.c5Graph.length = 5 := by
  refine ⟨by decide, by decide⟩

theorem charListLe_total : ∀ as bs, charListLe as bs = true ∨ charListLe bs as = true := by
  intro as
  induction as with
  | nil => intro bs; exact Or.inl rfl
  | cons a as ih =>
      intro bs
      match bs with
      | [] => exact Or.inr rfl
      | b :: bs =>
          by_cases h1 : a.toNat < b.toNat
          · exact Or.inl (by simp [charListLe, h1])
          · by_cases h2 : b.toNat < a.toNat
            · exact Or.inr (by simp [charListLe, h2])
            · rcases ih bs with h | h
              · exact Or.inl (by simpa [charListLe, h1, h2] using h)
              · exact Or.inr (by simpa [charListLe, h1, h2] using h)

theorem charListLe_trans : ∀ as bs cs, charListLe as bs = true →
    charListLe bs cs = true → charListLe as cs = true := by
  intro as
  induction as with
  | nil => intro bs cs _ _; rfl
  | cons a as ih =>
      intro bs cs hab hbc
      match bs, cs with
      | [], _ => exact absurd hab (by simp [charListLe])
      | _ :: _, [] => exact absurd hbc (by simp [charListLe])
      | b :: bs, c :: cs =>
          simp only [charListLe] at hab hbc ⊢
          by_cases h1 : a.toNat < b.toNat
          · by_cases h2 : b.toNat < c.toNat
            · simp [show a.toNat < c.toNat by omega]
            · by_cases h3 : c.toNat < b.toNat
              · simp [h2, h3] at hbc
              · simp [show a.toNat < c.toNat by omega]
          · by_cases h2 : b.toNat < a.toNat
            · simp [h1, h2] at hab
            · by_cases h3 : b.toNat < c.toNat
              · simp [show a.toNat < c.toNat by omega]
              · by_cases h4 : c.toNat < b.toNat
                · simp [h3, h4] at hbc
                · have h5 : ¬ a.toNat < c.toNat := by omega
                  have h6 : ¬ c.toNat < a.toNat := by omega
                  simp [h1, h2] at hab
                  simp [h3, h4] at hbc
                  simp [h5, h6]
                  exact ih bs cs hab hbc

namespace Hake

theorem mem_sortedSet (xs : List String) (n : String) :
    n ∈ sortedSet xs ↔ n ∈ xs := by
  simp [sortedSet]

theorem sortedSet_nodup (xs : List String) : (sortedSet xs).Nodup := by
  rw [sortedSet]
  exact (List.perm_insertionSort _ _).nodup_iff.mpr (List.nodup_dedup xs)

theorem sortedSet_strict (xs : List String) :
    (sortedSet xs).Pairwise (fun a b => strLe a b = true ∧ a ≠ b) := by
  haveI : IsTotal String (fun a b => strLe a b = true) :=
    ⟨fun a b => charListLe_total a.data b.data⟩
  haveI : IsTrans String (fun a b => strLe a b = true) :=
    ⟨fun a b c hab hbc => charListLe_trans a.data b.data c.data hab hbc⟩
  have h1 : (sortedSet xs).Pairwise (fun a b => strLe a b = true) :=
    List.sorted_insertionSort _ _
  exact h1.and (sortedSet_nodup xs)

theorem mem_collectEntities (triples : List (String × String × String)) (n : String) :
    n ∈ collectEntities triples ↔ ∃ t ∈ triples, t.1 = n ∨ t.2.2 = n := by
  simp [collectEntities]
  constructor
  · rintro ⟨a, b, c, hm, h⟩
    exact ⟨a, b, c, hm, by tauto⟩
  · rintro ⟨a, b, c, hm, h⟩
    exact ⟨a, b, c, hm, by tauto⟩

end Hake

/-- Claim C6: make_hake_dataset assigns every distinct head or tail name
a dense integer ID in ascending lexicographic order (the name column of
entities.dict is strictly sorted and holds exactly the head and tail
names, each line being index tab name), relations.dict does the same
for the distinct relation names, and train.txt lists every input triple
tab-separated in input order without deduplication; on the two-triple
example the three files are exactly as the claim lists them. -/
theorem C6_hake_dataset_format :
    (∀ triples : List (String × String × String),
      (Hake.make_hake_dataset triples).1 =
        (Hake.sortedSet (Hake.collectEntities triples)).enum.map
          (fun p => toString p.1 ++ "\t" ++ p.2) ∧
      (Hake.sortedSet (Hake.collectEntities triples)).Pairwise
        (fun a b => strLe a b = true ∧ a ≠ b) ∧
      (∀ n, n ∈ Hake.sortedSet (Hake.collectEntities triples) ↔
        ∃ t ∈ triples, t.1 = n ∨ t.2.2 = n) ∧
      (Hake.make_hake_dataset triples).2.1 =
        (Hake.sortedSet (triples.map (fun t => t.2.1))).enum.map
          (fun p => toString p.1 ++ "\t" ++ p.2) ∧
      (Hake.sortedSet (triples.map (fun t => t.2.1))).Pairwise
        (fun a b => strLe a b = true ∧ a ≠ b) ∧
      (∀ r, r ∈ Hake.sortedSet (triples.map (fun t => t.2.1)) ↔
        ∃ t ∈ triples, t.2.1 = r) ∧
      (Hake.make_hake_dataset triples).2.2 = triples.map Hake.tripleLine ∧
      (Hake.make_hake_dataset triples).2.2.length = triples.length) ∧
    Hake.make_hake_dataset [("acme", "hasSymbol", "ACME"), ("acme", "belongsTo", "tech")] =
      (["0\tACME", "1\tacme", "2\ttech"],
       ["0\tbelongsTo", "1\thasSymbol"],
       ["acme\thasSymbol\tACME", "acme\tbelongsTo\ttech"]) := by
  constructor
  · intro triples
    refine ⟨rfl, Hake.sortedSet_strict _, ?_, rfl,
      Hake.sortedSet_strict _, ?_, rfl, by simp [Hake.make_hake_dataset]⟩
    · intro n
      rw [Hake.mem_sortedSet]
      exact Hake.mem_collectEntities triples n
    · intro r
      rw [Hake.mem_sortedSet]
      simp
  · decide

namespace Kge

theorem listMapOpt_all_some {f : α → Option β} (d : β) (xs : List α)
    (h : ∀ x ∈ xs, (f x).isSome) :
    listMapOpt f xs = some (xs.map (fun x => (f x).getD d)) := by
  induction xs with
  | nil => rfl
  | cons x rest ih =>
      have hx : (f x).isSome := h x (List.mem_cons_self _ _)
      obtain ⟨y, hy⟩ := Option.isSome_iff_exists.mp hx
      rw [listMapOpt, hy, ih (fun z hz => h z (List.mem_cons_of_mem _ hz))]
      simp [hy]

end Kge

/-- Claim C7: on every list of relation descriptors whose referenced
entity types and local IDs are all covered by the entity-to-global
mapping, build_global_triples succeeds and returns exactly the triples
in relation order and, within each relation, in edge order - the order
is a deterministic function of the input, here given in closed form by
orderedTriplesSpec. -/
theorem C7_build_global_triples_order
    (rels : List Kge.RelDescriptor) (e2g : Dict String (Dict Nat Nat))
    (hcov : ∀ rel ∈ rels,
      (∀ h ∈ rel.heads, (dlookup2 e2g rel.head_type h).isSome) ∧
      (∀ t ∈ rel.tails, (dlookup2 e2g rel.tail_type t).isSome)) :
    Kge.build_global_triples rels e2g = some (Kge.orderedTriplesSpec rels e2g) := by
  induction rels with
  | nil => rfl
  | cons rel rest ih =>
      have hrel := hcov rel (List.mem_cons_self _ _)
      rw [Kge.build_global_triples,
        Kge.listMapOpt_all_some 0 rel.heads hrel.1,
        Kge.listMapOpt_all_some 0 rel.tails hrel.2]
      simp only [Option.some_bind]
      rw [ih (fun r hr => hcov r (List.mem_cons_of_mem _ hr))]
      simp [Kge.orderedTriplesSpec, List.zip_map, List.map_map, Function.comp]

/-- Witness for C7 at a concrete input: two relations, all local IDs
covered; the output lists the hasSymbol edges first, in edge order,
then the belongsTo edge. -/
theorem C7_witness :
    Kge.build_global_triples
      [⟨"hasSymbol", "company", "symbol", [0, 1], [1, 0]⟩,
       ⟨"belongsTo", "company", "industry", [0], [0]⟩]
      [("company", [(0, 0), (1, 1)]), ("symbol", [(0, 2), (1, 3)]),
       ("industry", [(0, 4)])]
      = some [(0, "hasSymbol", 3), (1, "hasSymbol", 2), (0, "belongsTo", 4)] := by
  rw [C7_build_global_triples_order
    [⟨"hasSymbol", "company", "symbol", [0, 1], [1, 0]⟩,
     ⟨"belongsTo", "company", "industry", [0], [0]⟩]
    [("company", [(0, 0), (1, 1)]), ("symbol", [(0, 2), (1, 3)]),
     ("industry", [(0, 4)])]
    (by decide)]
  decide

namespace Rdf

theorem edgesLoop_spec (srcMap dstMap : Dict Nat String) (srcNs dstNs : String)
    (pred : Node) :
    ∀ (pairs : List (Nat × Nat)) (g : List RdfTriple) (c : Nat),
      edgesLoop srcMap dstMap srcNs dstNs pred pairs g c =
        (gaddAll g (pairs.filterMap (resolveEdge srcMap dstMap srcNs dstNs pred)),
         c + (pairs.filterMap (resolveEdge srcMap dstMap srcNs dstNs pred)).length) := by
  intro pairs
  induction pairs with
  | nil => intro g c; simp [edgesLoop, gaddAll]
  | cons p rest ih =>
      intro g c
      rw [edgesLoop]
      cases hres : resolveEdge srcMap dstMap srcNs dstNs pred p with
      | some t =>
          simp only [List.filterMap_cons, hres, List.foldl_cons, List.length_cons]
          rw [ih]
          simp only [gaddAll, List.foldl_cons, Prod.mk.injEq]
          exact ⟨trivial, by omega⟩
      | none =>
          simp only [List.filterMap_cons, hres]
          rw [ih]

end Rdf

namespace Hake

theorem hakeLoop_append_abort (gt : Dict String String)
    (lt idd : Dict String (Dict Nat String)) :
    ∀ (pre : List (Nat × String × Nat)) (acc : List (String × String × String))
      (x : Nat × String × Nat) (rest : List (Nat × String × Nat)) (a b c d : String),
      (∀ y ∈ pre, ∃ tr, resolveTriple gt lt idd y = StepRes.stepOk tr) →
      resolveTriple gt lt idd x = StepRes.stepAbort a b c d →
      hakeLoop gt lt idd (pre ++ x :: rest) acc = HakeRes.aborted a b c d := by
  intro pre
  induction pre with
  | nil =>
      intro acc x rest a b c d _ hx
      rw [List.nil_append, hakeLoop, hx]
  | cons y pre ih =>
      intro acc x rest a b c d hpre hx
      obtain ⟨tr, htr⟩ := hpre y (List.mem_cons_self _ _)
      rw [List.cons_append, hakeLoop, htr]
      exact ih _ x rest a b c d (fun z hz => hpre z (List.mem_cons_of_mem _ hz)) hx

theorem hakeLoop_all_ok (gt : Dict String String)
    (lt idd : Dict String (Dict Nat String)) :
    ∀ (ts : List (Nat × String × Nat)) (acc : List (String × String × String)),
      (∀ y ∈ ts, ∃ tr, resolveTriple gt lt idd y = StepRes.stepOk tr) →
      ∃ l, hakeLoop gt lt idd ts acc = HakeRes.ok l := by
  intro ts
  induction ts with
  | nil => intro acc _; exact ⟨acc, rfl⟩
  | cons y rest ih =>
      intro acc h
      obtain ⟨tr, htr⟩ := h y (List.mem_cons_self _ _)
      rw [hakeLoop, htr]
      exact ih _ (fun z hz => h z (List.mem_cons_of_mem _ hz))

end Hake

/-- Claim C4: the two export paths treat an unresolvable local ID
asymmetrically.  In the RDF exporter, the final graph is exactly the
input graph plus the resolvable edges (in order) - an edge with either
endpoint missing from its id-to-name mapping is silently skipped and
the rest are still added, and the edge count counts only the added
ones.  In the embedding-dataset name resolution, the first triple
whose head or tail name lookup fails makes make_hake_triples return the
Python None carrying the reported head and tail types and local IDs (no
triple list at all), while a fully resolvable input yields a triple
list. -/
theorem C4_error_policy_asymmetry :
    (∀ (g : List Rdf.RdfTriple) (srcIds dstIds : List Nat)
        (srcMap dstMap : Dict Nat String) (srcNs dstNs : String) (pred : Rdf.Node),
      Rdf.add_edges_from_tensor g srcIds dstIds srcMap dstMap srcNs dstNs pred =
        (Rdf.gaddAll g ((srcIds.zip dstIds).filterMap
            (Rdf.resolveEdge srcMap dstMap srcNs dstNs pred)),
          ((srcIds.zip dstIds).filterMap
            (Rdf.resolveEdge srcMap dstMap srcNs dstNs pred)).length)) ∧
    (∀ (gtr pre rest : List (Nat × String × Nat)) (x : Nat × String × Nat)
        (gty : Dict String String) (gid : Dict String (Dict String Nat))
        (idd : Dict String (Dict Nat String)) (a b c d : String),
      gtr = pre ++ x :: rest →
      (∀ y ∈ pre, ∃ tr, Hake.resolveTriple gty (Hake.invert_nested_dict gid) idd y
          = Hake.StepRes.stepOk tr) →
      Hake.resolveTriple gty (Hake.invert_nested_dict gid) idd x
          = Hake.StepRes.stepAbort a b c d →
      Hake.make_hake_triples gtr gty gid idd = Hake.HakeRes.aborted a b c d) ∧
    (∀ (gtr : List (Nat × String × Nat)) (gty : Dict String String)
        (gid : Dict String (Dict String Nat)) (idd : Dict String (Dict Nat String)),
      (∀ y ∈ gtr, ∃ tr, Hake.resolveTriple gty (Hake.invert_nested_dict gid) idd y
          = Hake.StepRes.stepOk tr) →
      ∃ l, Hake.make_hake_triples gtr gty gid idd = Hake.HakeRes.ok l) := by
  refine ⟨?_, ?_, ?_⟩
  · intro g srcIds dstIds srcMap dstMap srcNs dstNs pred
    rw [Rdf.add_edges_from_tensor, Rdf.edgesLoop_spec]
    simp
  · intro gtr pre rest x gty gid idd a b c d hsplit hpre hx
    rw [Hake.make_hake_triples, hsplit]
    exact Hake.hakeLoop_append_abort gty (Hake.invert_nested_dict gid) idd
      pre [] x rest a b c d hpre hx
  · intro gtr gty gid idd h
    rw [Hake.make_hake_triples]
    exact Hake.hakeLoop_all_ok gty (Hake.invert_nested_dict gid) idd gtr [] h

/-- Witness for C4: on the RDF side the edge (1, 0) is skipped because
1 has no name, yet the edge (0, 0) is still added; on the HAKE side the
name lookup of type A local 5 fails and the whole conversion returns
the reported head and tail types and local IDs. -/
theorem C4_witness :
    Rdf.add_edges_from_tensor [] [0, 1] [0, 0] [(0, "A")] [(0, "B")]
        "ns1/" "ns2/" (Rdf.Node.uri "p")
      = ([(Rdf.Node.uri "ns1/A", Rdf.Node.uri "p", Rdf.Node.uri "ns2/B")], 1) ∧
    Hake.make_hake_triples [(0, "rel", 1)] [("0", "A"), ("1", "B")]
        [("A", [("5", 0)]), ("B", [("7", 1)])] [("A", []), ("B", [])]
      = Hake.HakeRes.aborted "A" "5" "B" "7" := by
  constructor
  · rw [C4_error_policy_asymmetry.1 [] [0, 1] [0, 0] [(0, "A")] [(0, "B")]
      "ns1/" "ns2/" (Rdf.Node.uri "p")]
    decide
  · exact C4_error_policy_asymmetry.2.1 [(0, "rel", 1)] [] [] (0, "rel", 1)
      [("0", "A"), ("1", "B")] [("A", [("5", 0)]), ("B", [("7", 1)])]
      [("A", []), ("B", [])] "A" "5" "B" "7" rfl
      (fun y hy => absurd hy (List.not_mem_nil y)) (by decide)

namespace Uts

theorem holdersLoop_ok :
    ∀ (xs : List PyVal) (acc : List String), HoldersAreStrings xs →
      ∃ l, holdersLoop xs acc = Except.ok l := by
  intro xs
  induction xs with
  | nil => intro acc _; exact ⟨acc, rfl⟩
  | cons o rest ih =>
      intro acc h
      have hrest : HoldersAreStrings rest :=
        fun e v hm hl => h e v (List.mem_cons_of_mem _ hm) hl
      match o with
      | PyVal.str s => exact ih acc hrest
      | PyVal.int n => exact ih acc hrest
      | PyVal.pynone => exact ih acc hrest
      | PyVal.list ys => exact ih acc hrest
      | PyVal.dict d =>
          rcases hd : dlookup d "Holder" with _ | v
          · rw [holdersLoop, hd]
            exact ih acc hrest
          · obtain ⟨s, hs⟩ := h d v (List.mem_cons_self _ _) hd
            subst hs
            rw [holdersLoop, hd]
            exact ih _ hrest

theorem fundsLoop_ok :
    ∀ (xs : List PyVal) (acc : List String), HoldersAreStrings xs →
      ∃ l, fundsLoop xs acc = Except.ok l := by
  intro xs
  induction xs with
  | nil => intro acc _; exact ⟨acc, rfl⟩
  | cons o rest ih =>
      intro acc h
      have hrest : HoldersAreStrings rest :=
        fun e v hm hl => h e v (List.mem_cons_of_mem _ hm) hl
      match o with
      | PyVal.str s => exact ih acc hrest
      | PyVal.int n => exact ih acc hrest
      | PyVal.pynone => exact ih acc hrest
      | PyVal.list ys => exact ih acc hrest
      | PyVal.dict d =>
          rcases hd : dlookup d "Holder" with _ | v
          · rw [fundsLoop, hd]
            exact ih acc hrest
          · obtain ⟨s, hs⟩ := h d v (List.mem_cons_self _ _) hd
            subst hs
            rw [fundsLoop, hd]
            exact ih _ hrest

end Uts

/-- Counterexample to claim C8 as stated: a list cell whose single dict
entry carries an integer Holder value makes extract_institution_names
raise AttributeError (calling lower on an int) instead of returning a
list; nothing in the function catches it. -/
theorem C8_counterexample :
    Uts.extract_institution_names (fun _ => none)
      (Uts.PyVal.list [Uts.PyVal.dict [("Holder", Uts.PyVal.int 42)]])
      = Except.error "AttributeError" := rfl

/-- Claim C8 (amended): parse_list itself never raises - a string cell
whose literal parse fails yields the Python None, and a non-string cell
is returned unchanged; the two extractors return a (possibly empty)
list of names whenever every Holder value they encounter after parsing
is a string.  A non-string Holder value, however, raises
(AttributeError in the institution extractor, TypeError in the
mutual-fund one), so the never-raise guarantee does not extend to every
input. -/
theorem C8_amended_helpers_no_raise :
    (∀ (ev : String → Option Uts.PyVal) (s : String),
      ev (Uts.preprocess s) = none →
        Uts.parse_list ev (Uts.PyVal.str s) = Uts.PyVal.pynone) ∧
    (∀ (ev : String → Option Uts.PyVal) (v : Uts.PyVal),
      (∀ s, v ≠ Uts.PyVal.str s) → Uts.parse_list ev v = v) ∧
    (∀ (ev : String → Option Uts.PyVal) (arr : Uts.PyVal),
      (∀ xs, Uts.coerceParsed ev arr = Uts.PyVal.list xs → Uts.HoldersAreStrings xs) →
      (∃ l, Uts.extract_institution_names ev arr = Except.ok l) ∧
      (∃ l, Uts.extract_mutualfund_names ev arr = Except.ok l)) := by
  refine ⟨?_, ?_, ?_⟩
  · intro ev s h
    rw [Uts.parse_list, h]
  · intro ev v h
    match v with
    | Uts.PyVal.str s => exact absurd rfl (h s)
    | Uts.PyVal.int n => rfl
    | Uts.PyVal.pynone => rfl
    | Uts.PyVal.list ys => rfl
    | Uts.PyVal.dict d => rfl
  · intro ev arr h
    rw [Uts.extract_institution_names, Uts.extract_mutualfund_names]
    rcases hc : Uts.coerceParsed ev arr with s | n | _ | xs | d
    · exact ⟨⟨[], rfl⟩, ⟨[], rfl⟩⟩
    · exact ⟨⟨[], rfl⟩, ⟨[], rfl⟩⟩
    · exact ⟨⟨[], rfl⟩, ⟨[], rfl⟩⟩
    · exact ⟨Uts.holdersLoop_ok xs [] (h xs hc), Uts.fundsLoop_ok xs [] (h xs hc)⟩
    · exact ⟨⟨[], rfl⟩, ⟨[], rfl⟩⟩

/-- Witness for the amended C8: a failing literal parse returns the
Python None, and a list whose Holder value is a string yields a name
list on both extractors. -/
theorem C8_witness :
    Uts.parse_list (fun _ => none) (Uts.PyVal.str "not a list")
        = Uts.PyVal.pynone ∧
    (∃ l, Uts.extract_institution_names (fun _ => none)
        (Uts.PyVal.list [Uts.PyVal.dict [("Holder", Uts.PyVal.str " Vanguard ")]])
        = Except.ok l) := by
  constructor
  · exact C8_amended_helpers_no_raise.1 (fun _ => none) "not a list" rfl
  · refine (C8_amended_helpers_no_raise.2.2 (fun _ => none)
      (Uts.PyVal.list [Uts.PyVal.dict [("Holder", Uts.PyVal.str " Vanguard ")]]) ?_).1
    intro xs hxs
    have hxs2 : xs = [Uts.PyVal.dict [("Holder", Uts.PyVal.str " Vanguard ")]] := by
      cases hxs
      rfl
    subst hxs2
    intro entries v hm hl
    have he : Uts.PyVal.dict entries
        = Uts.PyVal.dict [("Holder", Uts.PyVal.str " Vanguard ")] :=
      List.mem_singleton.mp hm
    cases he
    refine ⟨" Vanguard ", ?_⟩
    rw [dlookup] at hl
    simp at hl
    exact hl.symm

/-- Claim C9: clean_name strips a leading honorific from the closed set
Mr, Ms, Mrs, Dr, Prof - matched case-insensitively, each optionally
followed by a period and necessarily by whitespace - trims whitespace
and lower-cases; every non-string input passes through unchanged.  The
stated examples hold, together with one example for each title and
mixed casings, and one showing that a period not followed by whitespace
is not a title match. -/
theorem C9_clean_name_contract :
    (∀ v : Uts.PyVal, (∀ s, v ≠ Uts.PyVal.str s) → Uts.clean_name v = v) ∧
    Uts.clean_name (Uts.PyVal.str "Dr. Jane Smith") = Uts.PyVal.str "jane smith" ∧
    Uts.clean_name (Uts.PyVal.str "John Doe") = Uts.PyVal.str "john doe" ∧
    Uts.clean_name (Uts.PyVal.int 42) = Uts.PyVal.int 42 ∧
    Uts.clean_name (Uts.PyVal.str "MR Smith") = Uts.PyVal.str "smith" ∧
    Uts.clean_name (Uts.PyVal.str "ms. Jones") = Uts.PyVal.str "jones" ∧
    Uts.clean_name (Uts.PyVal.str "MrS.  van Dyke") = Uts.PyVal.str "van dyke" ∧
    Uts.clean_name (Uts.PyVal.str "dR.Lee") = Uts.PyVal.str "dr.lee" ∧
    Uts.clean_name (Uts.PyVal.str "PROF Knuth") = Uts.PyVal.str "knuth" ∧
    Uts.clean_name (Uts.PyVal.str "Mrs Robinson") = Uts.PyVal.str "robinson" := by
  refine ⟨?_, rfl, rfl, rfl, rfl, rfl, rfl, rfl, rfl, rfl⟩
  intro v h
  match v with
  | Uts.PyVal.str s => exact absurd rfl (h s)
  | Uts.PyVal.int n => rfl
  | Uts.PyVal.pynone => rfl
  | Uts.PyVal.list ys => rfl
  | Uts.PyVal.dict d => rfl

/-- Witness for C9: the pass-through branch applied to a concrete
non-string value. -/
theorem C9_witness : Uts.clean_name (Uts.PyVal.int 7) = Uts.PyVal.int 7 :=
  C9_clean_name_contract.1 (Uts.PyVal.int 7) (fun _ h => Uts.PyVal.noConfusion h)

namespace Kge

theorem dlookup_toPyKeyDict_str (d : Dict Nat String) (s : String) :
    dlookup (toPyKeyDict d) (PyKey.pstr s) = none := by
  induction d with
  | nil => rfl
  | cons p rest ih =>
      rw [toPyKeyDict, List.map_cons, dlookup, if_neg (by intro h; cases h)]
      exact ih

theorem bhgLoop_ok_iff (smap : Dict PyKey String) :
    ∀ (ts : List (Nat × String × Nat))
      (acc : Dict (String × String × String) (List (Nat × Nat))),
      (∃ d2, bhgLoop smap ts acc = Except.ok d2) ↔
      (∀ tr ∈ ts, (dlookup smap (PyKey.pstr (toString tr.1))).isSome ∧
        (dlookup smap (PyKey.pstr (toString tr.2.2))).isSome) := by
  intro ts
  induction ts with
  | nil =>
      intro acc
      constructor
      · intro _ tr htr
        exact absurd htr (List.not_mem_nil tr)
      · intro _
        exact ⟨acc, rfl⟩
  | cons tr rest ih =>
      intro acc
      obtain ⟨h, r, t⟩ := tr
      constructor
      · intro hok
        obtain ⟨d2, hd2⟩ := hok
        rcases hh : dlookup smap (PyKey.pstr (toString h)) with _ | hTy
        · rw [bhgLoop, hh] at hd2
          exact absurd hd2 (by intro hc; cases hc)
        · rcases ht : dlookup smap (PyKey.pstr (toString t)) with _ | tTy
          · rw [bhgLoop, hh, ht] at hd2
            exact absurd hd2 (by intro hc; cases hc)
          · intro tr2 htr2
            rcases List.mem_cons.mp htr2 with h2 | h2
            · subst h2
              exact ⟨by rw [hh]; rfl, by rw [ht]; rfl⟩
            · rw [bhgLoop, hh, ht] at hd2
              exact ((ih _).mp ⟨d2, hd2⟩) tr2 h2
      · intro hcov
        have hhead := hcov (h, r, t) (List.mem_cons_self _ _)
        obtain ⟨hTy, hh⟩ := Option.isSome_iff_exists.mp hhead.1
        obtain ⟨tTy, ht⟩ := Option.isSome_iff_exists.mp hhead.2
        rw [bhgLoop, hh, ht]
        exact (ih _).mpr (fun tr2 htr2 => hcov tr2 (List.mem_cons_of_mem _ htr2))

end Kge

/-- Claim C10: build_hetero_graph looks entity types up under the
string key str(global_id) while build_global_id_map returns an
integer-keyed type map, so feeding the latter directly into the former
raises KeyError on the very first triple of any non-empty input; and
build_hetero_graph succeeds exactly when every head and tail global ID
of the input is present as a stringified key of the given type map. -/
theorem C10_string_key_mismatch :
    (∀ (maps : List (Dict String Nat)) (types : List String)
        (res : Kge.GlobalIdResult) (x : Nat × String × Nat)
        (rest : List (Nat × String × Nat)),
      Kge.build_global_id_map maps types = some res →
      Kge.build_hetero_graph (x :: rest) (Kge.toPyKeyDict res.type_map)
        = Except.error "KeyError") ∧
    (∀ (triples : List (Nat × String × Nat)) (smap : Dict Kge.PyKey String),
      (∃ d2, Kge.build_hetero_graph triples smap = Except.ok d2) ↔
      (∀ tr ∈ triples, (dlookup smap (Kge.PyKey.pstr (toString tr.1))).isSome ∧
        (dlookup smap (Kge.PyKey.pstr (toString tr.2.2))).isSome)) := by
  constructor
  · intro maps types res x rest _
    obtain ⟨h, r, t⟩ := x
    rw [Kge.build_hetero_graph, Kge.bhgLoop, Kge.dlookup_toPyKeyDict_str]
  · intro triples smap
    exact Kge.bhgLoop_ok_iff smap triples []

/-- Witness for C10: a one-triple input fails on the integer-keyed type
map returned by build_global_id_map, and succeeds on the stringified
variant of the same map. -/
theorem C10_witness :
    Kge.build_hetero_graph [(0, "r", 0)] (Kge.toPyKeyDict [(0, "A")])
        = Except.error "KeyError" ∧
    (∃ d2, Kge.build_hetero_graph [(0, "r", 0)] [(Kge.PyKey.pstr "0", "A")]
        = Except.ok d2) := by
  constructor
  · exact C10_string_key_mismatch.1 [[("a", 0)]] ["A"]
      (Kge.GlobalIdResult.mk [("A", [(0, 0)])] [(0, "A")] [("A", 0)])
      (0, "r", 0) [] (by decide)
  · refine (C10_string_key_mismatch.2 [(0, "r", 0)] [(Kge.PyKey.pstr "0", "A")]).mpr ?_
    intro tr htr
    have h2 : tr = (0, "r", 0) := List.mem_singleton.mp htr
    subst h2
    exact ⟨by decide, by decide⟩
